import Mathlib

/-
Verification of the task-configuration watcher
(src/packages/task/src/browser/task-configurations.ts).

The component watches one tasks.json file per instance, parses it with a
comment-tolerant JSON parser, keeps a label-keyed map of task definitions,
and notifies a single client when a watched-file change was handled.

The embedding below is a shallow model of that TypeScript class.  External
collaborators (file system, watcher server, jsonc parser) are parameters of
an environment record; JavaScript dynamic behaviour that the code relies on
(property access on arbitrary values, for-of iteration, strict equality,
Map.set) is modelled explicitly.  Thrown exceptions are modelled with
Except.  The promise returned by refreshTasks is never awaited by its two
callers, so the model sequences its effects after the synchronous part of
the caller, which matches the deterministic microtask order of the source.
-/

namespace TaskConfig

/-- JSON values as produced by the external jsonc parser. -/
inductive Json where
  | null : Json
  | bool (b : Bool) : Json
  | num (n : Int) : Json
  | str (s : String) : Json
  | arr (elems : List Json) : Json
  | obj (fields : List (String × Json)) : Json

/-- JavaScript property access v[k]: throws a TypeError on null, looks the
field up on objects (undefined when absent; JS objects carry each key once),
and yields undefined on the remaining value kinds, since the only keys this
module reads, "tasks" and "label", are not own properties of strings,
numbers, booleans or arrays.  The result Option models value-or-undefined. -/
def getProp : Json → String → Except Unit (Option Json)
  | .null, _ => .error ()
  | .obj fields, k => .ok ((fields.find? (fun p => p.1 == k)).map Prod.snd)
  | _, _ => .ok none

/-- Equality test used by JavaScript strict equality on the values that flow
through this module: primitives compare by value; two array or object values
reaching a comparison here are always distinct parse nodes (the parser never
shares nodes), so reference equality on them is false. -/
def primEq : Json → Json → Bool
  | .null, .null => true
  | .bool a, .bool b => a == b
  | .num a, .num b => a == b
  | .str a, .str b => a == b
  | _, _ => false

/-- JavaScript strict equality on value-or-undefined. -/
def jsStrictEq : Option Json → Option Json → Bool
  | none, none => true
  | some a, some b => primEq a b
  | _, _ => false

/-- JavaScript for-of: arrays iterate their elements, strings iterate their
characters (as one-character strings); undefined, null, numbers, booleans
and plain objects are not iterable and throw. -/
def jsIterate : Option Json → Except Unit (List Json)
  | some (.arr xs) => .ok xs
  | some (.str s) => .ok (s.data.map (fun c => Json.str (String.mk [c])))
  | _ => .error ()

/-- A jsonc-parser ParseError record: an error code, an offset and a length. -/
structure ParseError where
  error : Nat
  offset : Nat
  length : Nat

/-- One line sent to the logger. -/
inductive LogEntry where
  | parseError (uri : String) (error length offset : Nat)
  | readError (uri : String)
  | duplicateLabel (label : Option Json)
  | warnMissingFile (rootUri : String)

/-- Outcome of asking the file system about a uri: the file is absent
(exists is false), or exists but resolveContent throws, or has content. -/
inductive ReadResult where
  | missing : ReadResult
  | failure : ReadResult
  | content (c : String) : ReadResult

/-- The external collaborators: the file system, and the jsonc functions
stripComments and parse (parse returns the collected syntax errors together
with the value, which the code only uses when no error was collected). -/
structure Env where
  fs : String → ReadResult
  parse : String → List ParseError × Json
  strip : String → String

/-- fileSystem.exists for a uri under an environment. -/
def fsExists (env : Env) (uri : String) : Bool :=
  match env.fs uri with
  | .missing => false
  | _ => true

/-- The callback of filteredTasks.some, with JavaScript evaluation order:
for each accepted task t in order, read t.label, then read task.label, then
compare strictly; a throw from either property read propagates. -/
def someLabelEq (task : Json) : List Json → Except Unit Bool
  | [] => .ok false
  | t :: rest => do
      let tl ← getProp t "label"
      let sl ← getProp task "label"
      if jsStrictEq tl sl then pure true else someLabelEq task rest

/-- The loop of filterDuplicates: acc is filteredTasks so far (in push
order), log the duplicate-label errors logged so far. -/
def filterDuplicatesGo : List Json → List LogEntry → List Json →
    Except Unit (List LogEntry × List Json)
  | acc, log, [] => .ok (log, acc)
  | acc, log, task :: rest => do
      let dup ← someLabelEq task acc
      if dup then do
        let lbl ← getProp task "label"
        filterDuplicatesGo acc (log ++ [.duplicateLabel lbl]) rest
      else
        filterDuplicatesGo (acc ++ [task]) log rest

/-- filterDuplicates from the source: first occurrence of a label wins,
later occurrences are dropped with one logged error each. -/
def filterDuplicates (tasks : List Json) : Except Unit (List LogEntry × List Json) :=
  filterDuplicatesGo [] [] tasks

/-- readTasks(uri): existence check, content read, comment stripping, parse;
with syntax errors each is logged and undefined is returned; otherwise the
value under the key "tasks" is iterated through filterDuplicates.  The
try/catch turns any throw (from the read or from the dynamic accesses) into
one logged read error and undefined. -/
def readTasks (env : Env) (uri : String) : List LogEntry × Option (List Json) :=
  match env.fs uri with
  | .missing => ([], none)
  | .failure => ([.readError uri], none)
  | .content c =>
      let es := (env.parse (env.strip c)).1
      let v := (env.parse (env.strip c)).2
      if es.isEmpty then
        match (do
            let tasksVal ← getProp v "tasks"
            let elems ← jsIterate tasksVal
            filterDuplicates elems : Except Unit (List LogEntry × List Json)) with
        | .error _ => ([.readError uri], none)
        | .ok (log, filtered) => (log, some filtered)
      else
        (es.map (fun e => .parseError uri e.error e.length e.offset), none)

/-- The task map: a JavaScript Map in insertion order, keyed by whatever
task.label evaluated to (a string in well-formed files, undefined or another
value otherwise). -/
abbrev TaskMap := List (Option Json × Json)

/-- JavaScript Map.set: when a key equal under SameValueZero is present the
value is replaced in place, keeping the original key and position; otherwise
the entry is appended.  SameValueZero co-incides with jsStrictEq on the keys
that occur here (JSON has no NaN). -/
def mapSet (m : TaskMap) (k : Option Json) (v : Json) : TaskMap :=
  if m.any (fun p => jsStrictEq p.1 k) then
    m.map (fun p => if jsStrictEq p.1 k then (p.1, v) else p)
  else m ++ [(k, v)]

/-- The insertion loop of refreshTasks: reads task.label, which throws on a
null task, then inserts.  On a throw the map keeps the insertions already
made; the second component reports whether the loop threw. -/
def setAll : TaskMap → List Json → TaskMap × Bool
  | m, [] => (m, false)
  | m, t :: rest =>
      match getProp t "label" with
      | .error _ => (m, true)
      | .ok lbl => setAll (mapSet m lbl t) rest

/-- The mutable fields of a TaskConfigurations instance, plus the list of
watch identifiers whose unwatch disposables sit in toDispose. -/
structure CompState where
  tasksMap : TaskMap
  watchedConfigFileUri : Option String
  clientSet : Bool
  pendingUnwatch : List Nat

/-- getTaskLabels(): the keys of the map in insertion order. -/
def getTaskLabels (st : CompState) : List (Option Json) :=
  st.tasksMap.map Prod.fst

/-- getTask(label): Map lookup under SameValueZero with a string key. -/
def getTask (st : CompState) (taskLabel : String) : Option Json :=
  match st.tasksMap.find? (fun p => jsStrictEq p.1 (some (.str taskLabel))) with
  | some p => some p.2
  | none => none

/-- refreshTasks: read the watched file and, only when readTasks produced an
array, clear the map and insert every task keyed by its label.  Returns the
new state, the log entries produced, and whether the insertion loop threw
(the caller never awaits the promise, so a throw is an unhandled rejection
with no further effect on the instance).  When no file was ever watched the
uri is undefined and the existence check fails, so nothing happens. -/
def refreshTasksStep (env : Env) (st : CompState) : CompState × List LogEntry × Bool :=
  match st.watchedConfigFileUri with
  | none => (st, [], false)
  | some uri =>
      match readTasks env uri with
      | (log, none) => (st, log, false)
      | (log, some tasks) =>
          let p := setAll [] tasks
          ({ st with tasksMap := p.1 }, log, p.2)

/-- Last directory element under which the config is looked for. -/
def TASKFILEPATH : String := ".theia"

/-- The task configuration file name. -/
def TASKFILE : String := "tasks.json"

/-- getConfigFileUri(rootDir): pure path computation rootDir/.theia/tasks.json. -/
def getConfigFileUri (rootDir : String) : String :=
  rootDir ++ "/" ++ TASKFILEPATH ++ "/" ++ TASKFILE

/-- State of the external watcher server: the active registrations and the
next fresh watch identifier. -/
structure WorldState where
  activeWatches : List (Nat × String)
  nextWatchId : Nat

/-- Observable effects of the operations. -/
inductive Event where
  | log (e : LogEntry)
  | watchRegistered (id : Nat) (uri : String)
  | watchUnregistered (id : Nat)
  | refreshTriggered (uri : String)
  | clientNotified (labels : List (Option Json))

/-- watchConfigurationFile(rootUri).  When the computed path differs from
the currently watched one the slot is updated, a new watch is registered and
its unwatch disposable pushed onto toDispose (the previous registration is
not unregistered here), and refreshTasks is started without await.  The
returned boolean is the existence check of the computed path, with a warning
logged when it fails. -/
def watchConfigurationFile (env : Env) (w : WorldState) (st : CompState)
    (rootUri : String) : WorldState × CompState × List Event × Bool :=
  let configFile := getConfigFileUri rootUri
  if st.watchedConfigFileUri = some configFile then
    let ret := fsExists env configFile
    (w, st, if ret then [] else [.log (.warnMissingFile rootUri)], ret)
  else
    let wid := w.nextWatchId
    let w1 : WorldState := ⟨w.activeWatches ++ [(wid, configFile)], wid + 1⟩
    let st1 : CompState := { st with
      watchedConfigFileUri := some configFile,
      pendingUnwatch := st.pendingUnwatch ++ [wid] }
    let r := refreshTasksStep env st1
    let ret := fsExists env configFile
    (w1, r.1,
      [.watchRegistered wid configFile, .refreshTriggered configFile]
        ++ (r.2.1).map Event.log
        ++ (if ret then [] else [.log (.warnMissingFile rootUri)]),
      ret)

/-- The change kinds delivered by the watcher protocol. -/
inductive FileChangeType where
  | updated : FileChangeType
  | added : FileChangeType
  | deleted : FileChangeType
deriving DecidableEq

/-- One change record of a batch. -/
structure FileChange where
  uri : String
  type : FileChangeType

/-- onDidTaskFileChange plus the fall-through notification of the watcher
client callback, applied to the one change selected from the batch.  On a
deletion the map is cleared synchronously and the client sees the empty
label list.  Otherwise refreshTasks is started without await, so the
notification carries the labels of the map as it was before the refresh
landed; the refresh effects follow, and a throw inside them is an unhandled
rejection that the surrounding try/catch never sees. -/
def handleChange (env : Env) (st : CompState) (change : FileChange) :
    CompState × List Event :=
  if change.type = .deleted then
    let st1 := { st with tasksMap := [] }
    (st1, if st1.clientSet then [.clientNotified (getTaskLabels st1)] else [])
  else
    let notifyEvs : List Event :=
      if st.clientSet then [.clientNotified (getTaskLabels st)] else []
    let r := refreshTasksStep env st
    (r.1, Event.refreshTriggered change.uri :: notifyEvs ++ (r.2.1).map Event.log)

/-- Whether a change record matches the currently watched uri under strict
equality (false whenever no file was ever watched). -/
def matchesWatched (st : CompState) (c : FileChange) : Bool :=
  st.watchedConfigFileUri == some c.uri

/-- The watcher client callback installed in the constructor: selects the
first change of the batch whose uri strictly equals the currently watched
uri and handles only that one; a batch without a match does nothing. -/
def onDidFilesChanged (env : Env) (st : CompState) (changes : List FileChange) :
    CompState × List Event :=
  match changes.find? (matchesWatched st) with
  | none => (st, [])
  | some change => handleChange env st change

/-- setClient(client): replaces the single client slot. -/
def setClient (st : CompState) : CompState :=
  { st with clientSet := true }

/-- dispose(): runs the disposable collection, which unwatches every
registration pushed so far (in reverse push order), clears the map and
clears the client. -/
def dispose (w : WorldState) (st : CompState) :
    WorldState × CompState × List Event :=
  (⟨w.activeWatches.filter (fun p => ! st.pendingUnwatch.contains p.1), w.nextWatchId⟩,
   { st with tasksMap := [], clientSet := false, pendingUnwatch := [] },
   st.pendingUnwatch.reverse.map Event.watchUnregistered)

/-- The public operations of the component, for invariant statements. -/
inductive Op where
  | watchConfig (rootUri : String)
  | filesChanged (changes : List FileChange)
  | setClientOp : Op
  | disposeOp : Op

/-- One operation applied to the watcher-server state and instance state. -/
def applyOp (env : Env) (w : WorldState) (st : CompState) : Op → WorldState × CompState
  | .watchConfig r =>
      let q := watchConfigurationFile env w st r
      (q.1, q.2.1)
  | .filesChanged cs => (w, (onDidFilesChanged env st cs).1)
  | .setClientOp => (w, setClient st)
  | .disposeOp =>
      let q := dispose w st
      (q.1, q.2.1)

/-- A refresh against uri fails: the file is absent, the read throws, or the
parse collects at least one syntax error. -/
def refreshFails (env : Env) (uri : String) : Prop :=
  match env.fs uri with
  | .missing => True
  | .failure => True
  | .content c => (env.parse (env.strip c)).1 ≠ []

/-- The label of a task when it is a string, as the specification assumes. -/
def strLabel (t : Json) : Option String :=
  match getProp t "label" with
  | .ok (some (.str s)) => some s
  | _ => none

/-- Spec-level rendering of the duplicate-filtering clause: keep a task
whose label was not seen at an earlier position, first occurrence wins,
original relative order preserved. -/
def dedupKept : List String → List Json → List Json
  | _, [] => []
  | seen, t :: rest =>
      match strLabel t with
      | some s =>
          if seen.contains s then dedupKept seen rest
          else t :: dedupKept (s :: seen) rest
      | none => dedupKept seen rest

/-- Spec-level rendering of the logging clause of duplicate filtering:
exactly one error naming the duplicate label per dropped later occurrence. -/
def dedupDropped : List String → List Json → List LogEntry
  | _, [] => []
  | seen, t :: rest =>
      match strLabel t with
      | some s =>
          if seen.contains s then
            .duplicateLabel (some (.str s)) :: dedupDropped seen rest
          else dedupDropped (s :: seen) rest
      | none => dedupDropped seen rest

/-- The key-label invariant of the task map: every entry is stored under
exactly the value its label field evaluates to. -/
def MapInv (m : TaskMap) : Prop :=
  ∀ p ∈ m, getProp p.2 "label" = Except.ok p.1

/-- Whether an event is a watch registration. -/
def isRegisterEvent : Event → Bool
  | .watchRegistered _ _ => true
  | _ => false

/-- Whether an event is a watch unregistration. -/
def isUnwatchEvent : Event → Bool
  | .watchUnregistered _ => true
  | _ => false

/-- Whether an event is a triggered refresh. -/
def isRefreshEvent : Event → Bool
  | .refreshTriggered _ => true
  | _ => false

/-- Whether an event is a client notification. -/
def isNotifyEvent : Event → Bool
  | .clientNotified _ => true
  | _ => false

/-- A task object with label "a". -/
def taskA : Json := .obj [("label", .str "a")]

/-- A task object with label "b". -/
def taskB : Json := .obj [("label", .str "b")]

/-- The duplicate-filtering input of the specification example. -/
def tasksABA : List Json := [taskA, taskB, taskA]

/-- An environment in which no file exists anywhere. -/
def envMissing : Env :=
  ⟨fun _ => .missing, fun _ => ([], .null), id⟩

/-- An environment whose watched file parses to one task labelled "a". -/
def envGoodA : Env :=
  ⟨fun _ => .content "good", fun _ => ([], .obj [("tasks", .arr [taskA])]), id⟩

/-- An environment whose watched file has one syntax error. -/
def envSyntaxErr : Env :=
  ⟨fun _ => .content "bad", fun _ => ([⟨2, 5, 7⟩], .null), id⟩

/-- An environment whose watched file parses to a document whose tasks key
holds the string "xy" instead of an array. -/
def envStrTasks : Env :=
  ⟨fun _ => .content "str", fun _ => ([], .obj [("tasks", .str "xy")]), id⟩

/-- An environment whose watched file parses to a document with no tasks
key at all. -/
def envNoTasks : Env :=
  ⟨fun _ => .content "emp", fun _ => ([], .obj [("other", .num 1)]), id⟩

/-- A watched instance with an empty map and a registered client. -/
def stClient : CompState := ⟨[], some "u", true, []⟩

/-- A watched instance whose map holds the task labelled "a". -/
def stPopulated : CompState := ⟨[(some (.str "a"), taskA)], some "u", true, []⟩

/-- A watcher-server state holding the registration of the first root. -/
def wOld : WorldState := ⟨[(0, getConfigFileUri "root1")], 1⟩

/-- An instance currently watching the config path of the first root, with
the unwatch disposable of watch 0 pending in toDispose. -/
def stOld : CompState := ⟨[], some (getConfigFileUri "root1"), false, [0]⟩

theorem readTasks_of_missing (env : Env) (uri : String)
    (h : env.fs uri = .missing) : readTasks env uri = ([], none) := by
  unfold readTasks
  rw [h]

theorem readTasks_of_fail (env : Env) (uri : String) (hf : refreshFails env uri) :
    (readTasks env uri).2 = none := by
  unfold refreshFails at hf
  unfold readTasks
  cases h : env.fs uri with
  | missing => rfl
  | failure => rfl
  | content c =>
    rw [h] at hf
    cases he : (env.parse (env.strip c)).1 with
    | nil => exact absurd he hf
    | cons a as => simp [he]

theorem readTasks_log_of_syntax (env : Env) (uri c : String)
    (h : env.fs uri = .content c) (he : (env.parse (env.strip c)).1 ≠ []) :
    (readTasks env uri).1 = ((env.parse (env.strip c)).1).map
      (fun e => LogEntry.parseError uri e.error e.length e.offset) := by
  unfold readTasks
  rw [h]
  cases hp : (env.parse (env.strip c)).1 with
  | nil => exact absurd hp he
  | cons a as => simp [hp]

theorem refresh_of_none (env : Env) (st : CompState) (uri : String)
    (h : st.watchedConfigFileUri = some uri)
    (h2 : (readTasks env uri).2 = none) :
    refreshTasksStep env st = (st, (readTasks env uri).1, false) := by
  rcases hr : readTasks env uri with ⟨log, o⟩
  rw [hr] at h2
  simp only at h2
  subst h2
  simp [refreshTasksStep, h, hr]

theorem refresh_preserves_rest (env : Env) (st : CompState) :
    (refreshTasksStep env st).1.watchedConfigFileUri = st.watchedConfigFileUri
    ∧ (refreshTasksStep env st).1.clientSet = st.clientSet
    ∧ (refreshTasksStep env st).1.pendingUnwatch = st.pendingUnwatch := by
  unfold refreshTasksStep
  cases h : st.watchedConfigFileUri with
  | none => simp [h]
  | some uri =>
    rcases hr : readTasks env uri with ⟨log, o⟩
    cases o with
    | none => simp [hr, h]
    | some tasks => simp [hr, h]

/-- C1: for every refresh attempt that fails (the watched file does not
exist, reading its content throws, or parsing collects at least one syntax
error) the in-memory task map, the label list and every getTask lookup are
unchanged, and on syntax errors each collected error is logged with its
code, length and offset. -/
theorem c1_refresh_failure_preserves_map (env : Env) (st : CompState) (uri : String)
    (h : st.watchedConfigFileUri = some uri) (hf : refreshFails env uri) :
    (refreshTasksStep env st).1 = st
    ∧ getTaskLabels (refreshTasksStep env st).1 = getTaskLabels st
    ∧ (∀ l, getTask (refreshTasksStep env st).1 l = getTask st l)
    ∧ ∀ c, env.fs uri = .content c →
        (refreshTasksStep env st).2.1 = ((env.parse (env.strip c)).1).map
          (fun e => LogEntry.parseError uri e.error e.length e.offset) := by
  have h2 := readTasks_of_fail env uri hf
  have h3 := refresh_of_none env st uri h h2
  rw [h3]
  refine ⟨rfl, rfl, fun l => rfl, fun c hc => ?_⟩
  refine readTasks_log_of_syntax env uri c hc ?_
  unfold refreshFails at hf
  rw [hc] at hf
  exact hf

theorem c1_witness :
    stPopulated.watchedConfigFileUri = some "u"
    ∧ refreshFails envSyntaxErr "u"
    ∧ ((refreshTasksStep envSyntaxErr stPopulated).1 = stPopulated
       ∧ getTaskLabels (refreshTasksStep envSyntaxErr stPopulated).1 = getTaskLabels stPopulated
       ∧ (∀ l, getTask (refreshTasksStep envSyntaxErr stPopulated).1 l = getTask stPopulated l)
       ∧ ∀ c, envSyntaxErr.fs "u" = .content c →
           (refreshTasksStep envSyntaxErr stPopulated).2.1 =
             ((envSyntaxErr.parse (envSyntaxErr.strip c)).1).map
               (fun e => LogEntry.parseError "u" e.error e.length e.offset)) :=
  ⟨rfl, by simp [refreshFails, envSyntaxErr],
   c1_refresh_failure_preserves_map envSyntaxErr stPopulated "u" rfl
     (by simp [refreshFails, envSyntaxErr])⟩

/-- C5: a deletion-type change that is the selected change of the batch
clears the task map immediately, attempts no refresh, and notifies a
registered client with the empty label list, whatever the file system
says about the file. -/
theorem handleChange_deleted (env : Env) (st : CompState) (change : FileChange)
    (hdel : change.type = .deleted) :
    handleChange env st change =
      ({ st with tasksMap := [] },
       if st.clientSet then [Event.clientNotified []] else []) := by
  unfold handleChange
  rw [if_pos hdel]
  simp [getTaskLabels]

theorem c5_deletion_clears (env : Env) (st : CompState)
    (changes : List FileChange) (change : FileChange)
    (hfind : changes.find? (matchesWatched st) = some change)
    (hdel : change.type = .deleted) :
    (onDidFilesChanged env st changes).1.tasksMap = []
    ∧ getTaskLabels (onDidFilesChanged env st changes).1 = []
    ∧ (st.clientSet = true →
        Event.clientNotified [] ∈ (onDidFilesChanged env st changes).2)
    ∧ ∀ e ∈ (onDidFilesChanged env st changes).2, isRefreshEvent e = false := by
  have hstep : onDidFilesChanged env st changes = handleChange env st change := by
    unfold onDidFilesChanged
    rw [hfind]
  rw [hstep, handleChange_deleted env st change hdel]
  refine ⟨rfl, rfl, fun hc => by simp [hc], fun e he => ?_⟩
  cases hcl : st.clientSet with
  | false =>
    rw [hcl] at he
    simp at he
  | true =>
    rw [hcl] at he
    simp at he
    subst he
    rfl

theorem c5_witness :
    ([⟨"u", .deleted⟩] : List FileChange).find? (matchesWatched stPopulated) = some ⟨"u", .deleted⟩
    ∧ (⟨"u", .deleted⟩ : FileChange).type = .deleted
    ∧ ((onDidFilesChanged envMissing stPopulated [⟨"u", .deleted⟩]).1.tasksMap = []
       ∧ getTaskLabels (onDidFilesChanged envMissing stPopulated [⟨"u", .deleted⟩]).1 = []
       ∧ (stPopulated.clientSet = true →
           Event.clientNotified [] ∈ (onDidFilesChanged envMissing stPopulated [⟨"u", .deleted⟩]).2)
       ∧ ∀ e ∈ (onDidFilesChanged envMissing stPopulated [⟨"u", .deleted⟩]).2,
           isRefreshEvent e = false) :=
  ⟨rfl, rfl, c5_deletion_clears envMissing stPopulated [⟨"u", .deleted⟩] ⟨"u", .deleted⟩ rfl rfl⟩

theorem find?_append_left {α : Type} (p : α → Bool) (cs ds : List α)
    (h : (cs.find? p).isSome) : (cs ++ ds).find? p = cs.find? p := by
  induction cs with
  | nil => simp at h
  | cons a as ih =>
    by_cases hp : p a
    · simp [List.find?_cons_of_pos _ hp]
    · rw [List.find?_cons_of_neg _ hp] at h
      simp [List.find?_cons_of_neg _ hp, ih h]

/-- C9: the watcher client handles at most one change per delivered batch,
namely the first change whose uri equals the currently watched path; a
batch without a match does nothing, and appending further changes behind an
existing match leaves the outcome unchanged. -/
theorem c9_first_match_only (env : Env) (st : CompState) (changes : List FileChange) :
    (∀ change, changes.find? (matchesWatched st) = some change →
        onDidFilesChanged env st changes = handleChange env st change)
    ∧ (changes.find? (matchesWatched st) = none →
        onDidFilesChanged env st changes = (st, []))
    ∧ ∀ ds, (changes.find? (matchesWatched st)).isSome →
        onDidFilesChanged env st (changes ++ ds) = onDidFilesChanged env st changes := by
  refine ⟨fun change hfind => ?_, fun hnone => ?_, fun ds hsome => ?_⟩
  · unfold onDidFilesChanged
    rw [hfind]
  · unfold onDidFilesChanged
    rw [hnone]
  · unfold onDidFilesChanged
    rw [find?_append_left _ _ _ hsome]

theorem c9_witness :
    (([⟨"u", .updated⟩] : List FileChange).find? (matchesWatched stPopulated)).isSome = true
    ∧ onDidFilesChanged envMissing stPopulated ([⟨"u", .updated⟩] ++ [⟨"u", .deleted⟩])
        = onDidFilesChanged envMissing stPopulated [⟨"u", .updated⟩] :=
  ⟨rfl, (c9_first_match_only envMissing stPopulated [⟨"u", .updated⟩]).2.2
          [⟨"u", .deleted⟩] rfl⟩

theorem countP_log_map (p : Event → Bool) (hp : ∀ x : LogEntry, p (Event.log x) = false)
    (l : List LogEntry) : (l.map Event.log).countP p = 0 := by
  induction l with
  | nil => rfl
  | cons a as ih => simp [List.countP_cons, hp, ih]

/-- C7: calling watchConfigurationFile with a root whose computed config
path is already the watched one registers no watch, triggers no refresh,
and leaves the instance state and the watcher-server state unchanged. -/
theorem c7_idempotent_rewatch (env : Env) (w : WorldState) (st : CompState)
    (root : String)
    (h : st.watchedConfigFileUri = some (getConfigFileUri root)) :
    (watchConfigurationFile env w st root).1 = w
    ∧ (watchConfigurationFile env w st root).2.1 = st
    ∧ ∀ e ∈ (watchConfigurationFile env w st root).2.2.1,
        isRegisterEvent e = false ∧ isRefreshEvent e = false := by
  simp only [watchConfigurationFile, if_pos h]
  refine ⟨by simp, by simp, fun e he => ?_⟩
  by_cases hex : fsExists env (getConfigFileUri root)
  · rw [hex] at he
    simp at he
  · simp only [Bool.not_eq_true] at hex
    rw [hex] at he
    simp at he
    subst he
    exact ⟨rfl, rfl⟩

theorem c7_witness :
    stOld.watchedConfigFileUri = some (getConfigFileUri "root1")
    ∧ ((watchConfigurationFile envMissing wOld stOld "root1").1 = wOld
       ∧ (watchConfigurationFile envMissing wOld stOld "root1").2.1 = stOld
       ∧ ∀ e ∈ (watchConfigurationFile envMissing wOld stOld "root1").2.2.1,
           isRegisterEvent e = false ∧ isRefreshEvent e = false) :=
  ⟨rfl, c7_idempotent_rewatch envMissing wOld stOld "root1" rfl⟩

/-- C8: the boolean returned by watchConfigurationFile reports exactly
whether a file exists at the computed config path; when it does not, the
call returns false, logs a warning naming the root, and leaves the task map
untouched (in particular an empty map stays empty), without raising. -/
theorem c8_missing_file (env : Env) (w : WorldState) (st : CompState)
    (root : String) :
    (watchConfigurationFile env w st root).2.2.2 = fsExists env (getConfigFileUri root)
    ∧ (env.fs (getConfigFileUri root) = .missing →
        (watchConfigurationFile env w st root).2.2.2 = false
        ∧ Event.log (.warnMissingFile root) ∈ (watchConfigurationFile env w st root).2.2.1
        ∧ (watchConfigurationFile env w st root).2.1.tasksMap = st.tasksMap
        ∧ (st.tasksMap = [] → (watchConfigurationFile env w st root).2.1.tasksMap = [])) := by
  by_cases hif : st.watchedConfigFileUri = some (getConfigFileUri root)
  · simp only [watchConfigurationFile, if_pos hif]
    refine ⟨by simp, fun hm => ?_⟩
    have hex : fsExists env (getConfigFileUri root) = false := by
      simp [fsExists, hm]
    rw [hex]
    simp
  · simp only [watchConfigurationFile, if_neg hif]
    refine ⟨by simp, fun hm => ?_⟩
    have hex : fsExists env (getConfigFileUri root) = false := by
      simp [fsExists, hm]
    have hrefresh := refresh_of_none env
      { st with watchedConfigFileUri := some (getConfigFileUri root),
                pendingUnwatch := st.pendingUnwatch ++ [w.nextWatchId] }
      (getConfigFileUri root) rfl
      (by rw [readTasks_of_missing env (getConfigFileUri root) hm])
    rw [readTasks_of_missing env (getConfigFileUri root) hm] at hrefresh
    rw [hrefresh, hex]
    simp

theorem c8_witness :
    envMissing.fs (getConfigFileUri "root3") = .missing
    ∧ ((watchConfigurationFile envMissing wOld stOld "root3").2.2.2
         = fsExists envMissing (getConfigFileUri "root3")
       ∧ (envMissing.fs (getConfigFileUri "root3") = .missing →
           (watchConfigurationFile envMissing wOld stOld "root3").2.2.2 = false
           ∧ Event.log (.warnMissingFile "root3")
               ∈ (watchConfigurationFile envMissing wOld stOld "root3").2.2.1
           ∧ (watchConfigurationFile envMissing wOld stOld "root3").2.1.tasksMap
               = stOld.tasksMap
           ∧ (stOld.tasksMap = [] →
               (watchConfigurationFile envMissing wOld stOld "root3").2.1.tasksMap = []))) :=
  ⟨rfl, c8_missing_file envMissing wOld stOld "root3"⟩

/-- C2 as frozen is refuted: after a root switch the previous watch
registration is still active and no unregistration was issued; the source
merely pushes the unwatch disposable onto toDispose. -/
theorem c2_counterexample :
    (0, getConfigFileUri "root1") ∈
      (watchConfigurationFile envMissing wOld stOld "root2").1.activeWatches
    ∧ (watchConfigurationFile envMissing wOld stOld "root2").2.2.1.all
        (fun e => ! isUnwatchEvent e) = true := by
  have h : watchConfigurationFile envMissing wOld stOld "root2" =
      (⟨[(0, getConfigFileUri "root1"), (1, getConfigFileUri "root2")], 2⟩,
       ⟨[], some (getConfigFileUri "root2"), false, [0, 1]⟩,
       [.watchRegistered 1 (getConfigFileUri "root2"),
        .refreshTriggered (getConfigFileUri "root2"),
        .log (.warnMissingFile "root2")], false) := rfl
  rw [h]
  exact ⟨by simp, rfl⟩

/-- C2 amended: on a root switch the watched-path slot is updated, a new
watch is registered for the new path, exactly one refresh is triggered
against the new path, and the previous registration is left active, its
unregistration deferred to dispose — no unwatch is issued here. -/
theorem c2_root_switch (env : Env) (w : WorldState) (st : CompState)
    (root : String)
    (h : st.watchedConfigFileUri ≠ some (getConfigFileUri root)) :
    (watchConfigurationFile env w st root).2.1.watchedConfigFileUri
        = some (getConfigFileUri root)
    ∧ (w.nextWatchId, getConfigFileUri root)
        ∈ (watchConfigurationFile env w st root).1.activeWatches
    ∧ (∀ p ∈ w.activeWatches, p ∈ (watchConfigurationFile env w st root).1.activeWatches)
    ∧ (watchConfigurationFile env w st root).2.2.1.countP isRegisterEvent = 1
    ∧ (watchConfigurationFile env w st root).2.2.1.countP isRefreshEvent = 1
    ∧ Event.refreshTriggered (getConfigFileUri root)
        ∈ (watchConfigurationFile env w st root).2.2.1
    ∧ ∀ e ∈ (watchConfigurationFile env w st root).2.2.1,
        isUnwatchEvent e = false := by
  simp only [watchConfigurationFile, if_neg h]
  have hreg0 := countP_log_map isRegisterEvent (fun x => rfl)
  have href0 := countP_log_map isRefreshEvent (fun x => rfl)
  refine ⟨?_, by simp, fun p hp => by simp [hp], ?_, ?_, by simp, fun e he => ?_⟩
  · exact ((refresh_preserves_rest env _).1).trans rfl
  · by_cases hex : fsExists env (getConfigFileUri root)
    · rw [hex]
      simp [List.countP_append, List.countP_cons, isRegisterEvent, hreg0]
    · simp only [Bool.not_eq_true] at hex
      rw [hex]
      simp [List.countP_append, List.countP_cons, isRegisterEvent, hreg0]
  · by_cases hex : fsExists env (getConfigFileUri root)
    · rw [hex]
      simp [List.countP_append, List.countP_cons, isRefreshEvent, href0]
    · simp only [Bool.not_eq_true] at hex
      rw [hex]
      simp [List.countP_append, List.countP_cons, isRefreshEvent, href0]
  · simp [List.mem_append] at he
    rcases he with rfl | rfl | ⟨x, hx, rfl⟩ | ⟨hfe, rfl⟩ <;> rfl

theorem c2_witness :
    stOld.watchedConfigFileUri ≠ some (getConfigFileUri "root2")
    ∧ ((watchConfigurationFile envMissing wOld stOld "root2").2.1.watchedConfigFileUri
         = some (getConfigFileUri "root2")
       ∧ (wOld.nextWatchId, getConfigFileUri "root2")
           ∈ (watchConfigurationFile envMissing wOld stOld "root2").1.activeWatches
       ∧ (∀ p ∈ wOld.activeWatches,
           p ∈ (watchConfigurationFile envMissing wOld stOld "root2").1.activeWatches)
       ∧ (watchConfigurationFile envMissing wOld stOld "root2").2.2.1.countP isRegisterEvent = 1
       ∧ (watchConfigurationFile envMissing wOld stOld "root2").2.2.1.countP isRefreshEvent = 1
       ∧ Event.refreshTriggered (getConfigFileUri "root2")
           ∈ (watchConfigurationFile envMissing wOld stOld "root2").2.2.1
       ∧ ∀ e ∈ (watchConfigurationFile envMissing wOld stOld "root2").2.2.1,
           isUnwatchEvent e = false) :=
  ⟨by decide, c2_root_switch envMissing wOld stOld "root2" (by decide)⟩

theorem bind_ok_unit {α β : Type} (a : α) (f : α → Except Unit β) :
    ((Except.ok a : Except Unit α) >>= f) = f a := rfl

theorem strLabel_eq_some (t : Json) (s : String) (h : strLabel t = some s) :
    getProp t "label" = .ok (some (.str s)) := by
  unfold strLabel at h
  split at h
  next heq =>
    injection h with h2
    subst h2
    exact heq
  next => cases h

theorem someLabelEq_str (task : Json) (s : String) (hs : strLabel task = some s) :
    ∀ acc : List Json, (∀ t ∈ acc, (strLabel t).isSome) →
      someLabelEq task acc = .ok (acc.any (fun t => strLabel t == some s))
  | [], _ => rfl
  | t :: rest, ha => by
    obtain ⟨u, hu⟩ := Option.isSome_iff_exists.mp (ha t (by simp))
    have h1 := strLabel_eq_some t u hu
    have h2 := strLabel_eq_some task s hs
    have ih := someLabelEq_str task s hs rest (fun x hx => ha x (by simp [hx]))
    simp only [someLabelEq, h1, h2, bind_ok_unit, List.any_cons, hu]
    by_cases hus : u = s
    · subst hus
      simp only [jsStrictEq, primEq, beq_self_eq_true, if_true, Option.some.injEq]
      simp
      rfl
    · have hne : (u == s) = false := beq_eq_false_iff_ne.mpr hus
      simp [jsStrictEq, primEq, hne, ih]

theorem filterGo_spec :
    ∀ (tasks acc : List Json) (log : List LogEntry) (seen : List String),
      (∀ t ∈ tasks, (strLabel t).isSome) →
      (∀ t ∈ acc, (strLabel t).isSome) →
      (∀ s : String, seen.contains s = acc.any (fun t => strLabel t == some s)) →
      filterDuplicatesGo acc log tasks =
        .ok (log ++ dedupDropped seen tasks, acc ++ dedupKept seen tasks)
  | [], acc, log, seen, _, _, _ => by
    simp [filterDuplicatesGo, dedupDropped, dedupKept]
  | task :: rest, acc, log, seen, ht, ha, hsn => by
    obtain ⟨s, hls⟩ := Option.isSome_iff_exists.mp (ht task (by simp))
    have hsome := someLabelEq_str task s hls acc ha
    have hgp := strLabel_eq_some task s hls
    have hrest : ∀ t ∈ rest, (strLabel t).isSome := fun x hx => ht x (by simp [hx])
    simp only [filterDuplicatesGo, hsome, bind_ok_unit]
    rw [← hsn s]
    by_cases hc : seen.contains s = true
    · have ih := filterGo_spec rest acc (log ++ [.duplicateLabel (some (.str s))])
        seen hrest ha hsn
      simp only [hc, if_true, hgp, bind_ok_unit, ih, dedupDropped, dedupKept, hls, List.append_assoc,
        List.singleton_append]
    · have hcf : seen.contains s = false := by
        simp only [Bool.not_eq_true] at hc
        exact hc
      have ha2 : ∀ t ∈ acc ++ [task], (strLabel t).isSome := by
        intro x hx
        rcases List.mem_append.mp hx with hx1 | hx2
        · exact ha x hx1
        · rcases List.mem_singleton.mp hx2 with rfl
          simp [hls]
      have hsn2 : ∀ u : String,
          (s :: seen).contains u = (acc ++ [task]).any (fun t => strLabel t == some u) := by
        intro u
        rw [List.contains_cons, List.any_append, hsn u]
        by_cases hsu : s = u
        · subst hsu
          simp [hls]
        · have h1 : (u == s) = false := beq_eq_false_iff_ne.mpr (fun h => hsu h.symm)
          have h2 : (s == u) = false := beq_eq_false_iff_ne.mpr hsu
          simp [hls, h1, h2]
      have ih := filterGo_spec rest (acc ++ [task]) log (s :: seen) hrest ha2 hsn2
      simp only [hcf, if_false, Bool.false_eq_true, ih, dedupDropped, dedupKept, hls,
        List.append_assoc, List.singleton_append]

theorem dedupKept_sublist : ∀ (seen : List String) (tasks : List Json),
    (dedupKept seen tasks).Sublist tasks
  | _, [] => List.Sublist.refl []
  | seen, t :: rest => by
    unfold dedupKept
    cases hl : strLabel t with
    | none => exact (dedupKept_sublist seen rest).cons t
    | some s =>
      by_cases hc : seen.contains s = true
      · simp only [hc, if_true]
        exact (dedupKept_sublist seen rest).cons t
      · have hcf : seen.contains s = false := by
          simp only [Bool.not_eq_true] at hc
          exact hc
        simp only [hcf, Bool.false_eq_true, if_false]
        exact (dedupKept_sublist (s :: seen) rest).cons₂ t

theorem dedup_length : ∀ (seen : List String) (tasks : List Json),
    (∀ t ∈ tasks, (strLabel t).isSome) →
    (dedupKept seen tasks).length + (dedupDropped seen tasks).length = tasks.length
  | _, [], _ => rfl
  | seen, t :: rest, ht => by
    obtain ⟨s, hls⟩ := Option.isSome_iff_exists.mp (ht t (by simp))
    have hrest : ∀ x ∈ rest, (strLabel x).isSome := fun x hx => ht x (by simp [hx])
    unfold dedupKept dedupDropped
    rw [hls]
    by_cases hc : seen.contains s = true
    · simp only [hc, if_true, List.length_cons]
      rw [← dedup_length seen rest hrest]
      omega
    · have hcf : seen.contains s = false := by
        simp only [Bool.not_eq_true] at hc
        exact hc
      simp only [hcf, Bool.false_eq_true, if_false, List.length_cons]
      rw [← dedup_length (s :: seen) rest hrest]
      omega

/-- C3: on any task sequence whose elements carry string labels, the
source's duplicate filter returns exactly the spec-level first-occurrence
filter (a subsequence of the input, original order preserved) and logs
exactly one duplicate-label error per dropped later occurrence. -/
theorem c3_duplicate_filtering (tasks : List Json)
    (h : ∀ t ∈ tasks, (strLabel t).isSome) :
    filterDuplicates tasks = .ok (dedupDropped [] tasks, dedupKept [] tasks)
    ∧ (dedupKept [] tasks).Sublist tasks
    ∧ (dedupKept [] tasks).length + (dedupDropped [] tasks).length = tasks.length := by
  refine ⟨?_, dedupKept_sublist [] tasks, dedup_length [] tasks h⟩
  have := filterGo_spec tasks [] [] [] h (by simp) (by simp)
  simpa [filterDuplicates] using this

theorem c3_witness :
    (∀ t ∈ tasksABA, (strLabel t).isSome)
    ∧ (filterDuplicates tasksABA = .ok (dedupDropped [] tasksABA, dedupKept [] tasksABA)
       ∧ (dedupKept [] tasksABA).Sublist tasksABA
       ∧ (dedupKept [] tasksABA).length + (dedupDropped [] tasksABA).length
           = tasksABA.length)
    ∧ filterDuplicates tasksABA
        = .ok ([.duplicateLabel (some (.str "a"))], [taskA, taskB]) :=
  ⟨by intro t ht; fin_cases ht <;> rfl,
   c3_duplicate_filtering tasksABA (by intro t ht; fin_cases ht <;> rfl),
   rfl⟩

theorem primEq_true_eq (a b : Json) (h : primEq a b = true) : a = b := by
  cases a <;> cases b <;> simp [primEq] at h <;> simp [h]

theorem jsStrictEq_true_eq (x y : Option Json) (h : jsStrictEq x y = true) : x = y := by
  cases x with
  | none => cases y with
    | none => rfl
    | some b => simp [jsStrictEq] at h
  | some a => cases y with
    | none => simp [jsStrictEq] at h
    | some b =>
      simp only [jsStrictEq] at h
      rw [primEq_true_eq a b h]

theorem mapSet_inv (m : TaskMap) (k : Option Json) (v : Json)
    (hm : MapInv m) (hv : getProp v "label" = .ok k) : MapInv (mapSet m k v) := by
  unfold mapSet
  by_cases h : m.any (fun p => jsStrictEq p.1 k) = true
  · simp only [h, if_true]
    intro p hp
    rcases List.mem_map.mp hp with ⟨q, hq, hpq⟩
    by_cases hqk : jsStrictEq q.1 k = true
    · rw [if_pos hqk] at hpq
      subst hpq
      rw [hv, jsStrictEq_true_eq q.1 k hqk]
    · rw [if_neg hqk] at hpq
      subst hpq
      exact hm q hq
  · simp only [h, if_false, Bool.false_eq_true]
    intro p hp
    rcases List.mem_append.mp hp with hp1 | hp2
    · exact hm p hp1
    · rcases List.mem_singleton.mp hp2 with rfl
      exact hv

theorem setAll_inv : ∀ (tasks : List Json) (m : TaskMap),
    MapInv m → MapInv (setAll m tasks).1
  | [], m, hm => hm
  | t :: rest, m, hm => by
    cases hl : getProp t "label" with
    | error e => simpa [setAll, hl] using hm
    | ok lbl =>
      simp only [setAll, hl]
      exact setAll_inv rest (mapSet m lbl t) (mapSet_inv m lbl t hm hl)

theorem refresh_inv (env : Env) (st : CompState) (hm : MapInv st.tasksMap) :
    MapInv (refreshTasksStep env st).1.tasksMap := by
  unfold refreshTasksStep
  cases h : st.watchedConfigFileUri with
  | none => simpa using hm
  | some uri =>
    rcases hr : readTasks env uri with ⟨log, o⟩
    cases o with
    | none => simpa [hr] using hm
    | some tasks =>
      simp only [hr]
      exact setAll_inv tasks [] (by intro p hp; cases hp)

theorem getTask_inv (st : CompState) (hm : MapInv st.tasksMap) (l : String)
    (t : Json) (h : getTask st l = some t) :
    getProp t "label" = .ok (some (.str l)) := by
  unfold getTask at h
  cases hf : st.tasksMap.find? (fun p => jsStrictEq p.1 (some (.str l))) with
  | none => rw [hf] at h; cases h
  | some p =>
    rw [hf] at h
    injection h with h2
    subst h2
    have hpred := List.find?_some hf
    have hmem := List.mem_of_find?_eq_some hf
    have hkey := jsStrictEq_true_eq p.1 (some (.str l)) hpred
    rw [hm p hmem, hkey]

/-- C10: every public operation preserves the invariant that each map key
equals the value of the label field of the task stored under it, and
consequently a successful getTask lookup always returns a task whose label
field equals the looked-up string. -/
theorem c10_key_label_invariant (env : Env) (w : WorldState) (st : CompState)
    (op : Op) (hm : MapInv st.tasksMap) :
    MapInv ((applyOp env w st op).2.tasksMap)
    ∧ ∀ l t, getTask (applyOp env w st op).2 l = some t →
        getProp t "label" = .ok (some (.str l)) := by
  have hinv : MapInv ((applyOp env w st op).2.tasksMap) := by
    cases op with
    | watchConfig r =>
      by_cases hif : st.watchedConfigFileUri = some (getConfigFileUri r)
      · simpa [applyOp, watchConfigurationFile, if_pos hif] using hm
      · simp only [applyOp, watchConfigurationFile, if_neg hif]
        exact refresh_inv env _ hm
    | filesChanged cs =>
      simp only [applyOp, onDidFilesChanged]
      cases hf : cs.find? (matchesWatched st) with
      | none => simpa using hm
      | some change =>
        simp only [handleChange]
        by_cases hdel : change.type = .deleted
        · simp only [if_pos hdel]
          intro p hp
          cases hp
        · simp only [if_neg hdel]
          exact refresh_inv env st hm
    | setClientOp => simpa [applyOp, setClient] using hm
    | disposeOp =>
      simp only [applyOp, dispose]
      intro p hp
      cases hp
  exact ⟨hinv, fun l t h => getTask_inv _ hinv l t h⟩

theorem c10_witness :
    MapInv stPopulated.tasksMap
    ∧ (MapInv ((applyOp envGoodA wOld stPopulated (.filesChanged [⟨"u", .updated⟩])).2.tasksMap)
       ∧ ∀ l t,
           getTask (applyOp envGoodA wOld stPopulated (.filesChanged [⟨"u", .updated⟩])).2 l
             = some t →
           getProp t "label" = .ok (some (.str l))) :=
  ⟨by intro p hp; rcases List.mem_singleton.mp hp with rfl; rfl,
   c10_key_label_invariant envGoodA wOld stPopulated (.filesChanged [⟨"u", .updated⟩])
     (by intro p hp; rcases List.mem_singleton.mp hp with rfl; rfl)⟩

/-- C4 as frozen is refuted: the source starts refreshTasks without
awaiting it, so the notification issued by the change handler carries the
label list of the map as it was before the refresh landed, not the list
resulting from the refresh attempt.  Here the refresh turns an empty map
into one with label "a", yet the registered client is notified with the
empty list and never with the new one. -/
theorem c4_counterexample :
    getTaskLabels (onDidFilesChanged envGoodA stClient [⟨"u", .updated⟩]).1
      = [some (Json.str "a")]
    ∧ Event.refreshTriggered "u" ∈ (onDidFilesChanged envGoodA stClient [⟨"u", .updated⟩]).2
    ∧ (onDidFilesChanged envGoodA stClient [⟨"u", .updated⟩]).2.filter isNotifyEvent
        = [Event.clientNotified []]
    ∧ Event.clientNotified ([] : List (Option Json))
        ≠ Event.clientNotified [some (Json.str "a")] := by
  have h : onDidFilesChanged envGoodA stClient [⟨"u", .updated⟩] =
      (⟨[(some (.str "a"), taskA)], some "u", true, []⟩,
       [.refreshTriggered "u", .clientNotified []]) := rfl
  rw [h]
  exact ⟨rfl, by simp, rfl, by simp⟩

/-- C4 amended: for a create/modify change selected from the batch, with a
client registered, a refresh is attempted and the client is notified — but
with the label list of the map as of before the refresh (the promise of
refreshTasks is never awaited); the refresh outcome lands on the state
afterwards, successful or not, without a further notification. -/
theorem c4_notify_pre_refresh (env : Env) (st : CompState)
    (changes : List FileChange) (change : FileChange)
    (hfind : changes.find? (matchesWatched st) = some change)
    (hnotdel : change.type ≠ .deleted)
    (hcl : st.clientSet = true) :
    (onDidFilesChanged env st changes).1 = (refreshTasksStep env st).1
    ∧ Event.refreshTriggered change.uri ∈ (onDidFilesChanged env st changes).2
    ∧ Event.clientNotified (getTaskLabels st) ∈ (onDidFilesChanged env st changes).2
    ∧ ∀ e ∈ (onDidFilesChanged env st changes).2,
        isNotifyEvent e = true → e = Event.clientNotified (getTaskLabels st) := by
  have hstep : onDidFilesChanged env st changes = handleChange env st change := by
    unfold onDidFilesChanged
    rw [hfind]
  rw [hstep]
  unfold handleChange
  rw [if_neg hnotdel]
  refine ⟨rfl, by simp, by simp [hcl], fun e he hn => ?_⟩
  simp [hcl, List.mem_append] at he
  rcases he with rfl | rfl | ⟨x, hx, rfl⟩
  · cases hn
  · rfl
  · cases hn

theorem c4_witness :
    ([⟨"u", .updated⟩] : List FileChange).find? (matchesWatched stClient)
        = some ⟨"u", .updated⟩
    ∧ (⟨"u", .updated⟩ : FileChange).type ≠ .deleted
    ∧ stClient.clientSet = true
    ∧ ((onDidFilesChanged envGoodA stClient [⟨"u", .updated⟩]).1
         = (refreshTasksStep envGoodA stClient).1
       ∧ Event.refreshTriggered "u" ∈ (onDidFilesChanged envGoodA stClient [⟨"u", .updated⟩]).2
       ∧ Event.clientNotified (getTaskLabels stClient)
           ∈ (onDidFilesChanged envGoodA stClient [⟨"u", .updated⟩]).2
       ∧ ∀ e ∈ (onDidFilesChanged envGoodA stClient [⟨"u", .updated⟩]).2,
           isNotifyEvent e = true → e = Event.clientNotified (getTaskLabels stClient)) :=
  ⟨rfl, by simp, rfl,
   c4_notify_pre_refresh envGoodA stClient [⟨"u", .updated⟩] ⟨"u", .updated⟩ rfl
     (by simp) rfl⟩

/-- C6: the code survives an absent tasks key exactly as the claim says
(the for-of throw is caught, a read error is logged, the map is untouched),
but on a tasks value that is a string the claim fails: the refresh does not
crash, logs a duplicate-label error, and replaces the previously populated
map with a single entry keyed by undefined holding the one-character string
"x" — the map is not left unchanged. -/
theorem c6_shape_bug :
    (refreshTasksStep envNoTasks stPopulated).1 = stPopulated
    ∧ (refreshTasksStep envNoTasks stPopulated).2.1 = [.readError "u"]
    ∧ (refreshTasksStep envStrTasks stPopulated).1.tasksMap = [(none, Json.str "x")]
    ∧ (refreshTasksStep envStrTasks stPopulated).2.1 = [.duplicateLabel none]
    ∧ (refreshTasksStep envStrTasks stPopulated).2.2 = false
    ∧ stPopulated.tasksMap ≠ [(none, Json.str "x")] := by
  refine ⟨rfl, rfl, rfl, rfl, rfl, ?_⟩
  simp [stPopulated]

end TaskConfig
